import Mathlib

/-!
Shallow embedding of `src/store.py` (module `store`): an in-process inventory
ledger with a binary-search range slicer over date-ordered record logs and an
incrementally maintained statistics cache.

Modelling conventions:
* Python numeric values (counts, prices) and timestamps are modelled as `Int`;
  the examples in the spec use exactly representable values, and the code only
  compares, adds and multiplies them.  `datetime.now()` is modelled by passing
  the timestamp of each mutating call explicitly as an `Int` argument.
* Python `dict`s are modelled as association lists in insertion order
  (`assocLookup` returns the first binding; assignment to an existing key
  rewrites it in place, assignment to a fresh key appends — exactly the
  observable behaviour of a Python `dict`).
* Fallible Python code (raising) returns `Except PyErr`.  Mutating `Store`
  methods return the post-call state alongside the result, so that an error
  outcome also records which mutations had already happened before the raise.
* The two merge-conflict drafts of `Store.stock` in the source differ only in
  how they treat an omitted `price`; every claim exercises `stock` with an
  explicit price, on which both drafts run the identical `add_item` path, so
  `Store.stock` below embeds that common path with `price` required.
-/

set_option autoImplicit false

/-- The exceptions the Python module can raise: its own `OperationError`
subclasses, plus the builtin `IndexError`, `KeyError` and `TypeError` that
its code can hit. -/
inductive PyErr where
  | outOfStock
  | priceMismatch
  | itemUnknown
  | indexError
  | keyError
  | typeError
  deriving DecidableEq, Repr

/-- First binding for a key in an association list; models `d[k]` lookup
order on a Python `dict` (each key occurs at most once there). -/
def assocLookup {κ β : Type} [DecidableEq κ] : List (κ × β) → κ → Option β
  | [], _ => none
  | (k', v) :: rest, k => if k' = k then some v else assocLookup rest k

/-- Models `d[k] = v` on a Python `dict`: rewrite the binding in place when
the key is present, append it otherwise (insertion order preserved). -/
def assocSet {κ β : Type} [DecidableEq κ] (m : List (κ × β)) (k : κ) (v : β) :
    List (κ × β) :=
  if (assocLookup m k).isSome then
    m.map (fun p => if p.1 = k then (k, v) else p)
  else
    m ++ [(k, v)]

/-- `class Item`: immutable name and price. -/
structure Item where
  name : String
  price : Int
  deriving DecidableEq, Repr

/-- `class ItemRecord` (and its subclasses `StockRecord` / `SalesRecord`,
which add only `__repr__`): an item, a count and the event date. -/
structure ItemRecord where
  item : Item
  count : Int
  date : Int
  deriving DecidableEq, Repr

/-- `class Statistic`: an item and its running count (`count` defaults
to 0 at construction). -/
structure Statistic where
  item : Item
  count : Int
  deriving DecidableEq, Repr

/-- The `total` property of `Statistic` evaluates `self._item * self.count`.
`Item` defines no multiplication (no `__mul__`, and `int.__rmul__` rejects
it), so in Python this expression raises `TypeError` no matter what the
count is; the value `count * price` is never produced. -/
def Statistic.total (_s : Statistic) : Except PyErr Int :=
  .error .typeError

/-- The loop of the inner `bisect` of `slice_monotonic_sequence`.  `chAt i`
models `characteristic(seq[i])` (all indices reached are in range, see the
callers); `cmpr` is the comparison lambda passed to `bisect`.  The Python
loop runs until `start + 1 >= end`; each iteration strictly shrinks
`end - start`, so a fuel of `len seq` (consumed one unit per iteration)
never runs out before the loop exits — the fuel-0 branch is unreachable
under the fuel the caller supplies. -/
def bisectGo (chAt : Nat → Int) (needle : Int) (cmpr : Int → Int → Bool) :
    Nat → Nat → Nat → Nat
  | 0, start, _ => start
  | fuel + 1, start, stop =>
    if start + 1 ≥ stop then start
    else
      -- `int((start + end) / 2)` of the source: floor of the midpoint
      let mid := (start + stop) / 2
      if cmpr (chAt mid) needle then bisectGo chAt needle cmpr fuel mid stop
      else bisectGo chAt needle cmpr fuel start mid

/-- `def bisect(needle, cmpr)` inside `slice_monotonic_sequence`: binary
search over `[0, len seq)` starting from `start, end = 0, len(seq)`. -/
def bisectRun (chAt : Nat → Int) (needle : Int) (cmpr : Int → Int → Bool)
    (len : Nat) : Nat :=
  bisectGo chAt needle cmpr len 0 len

/-- Models `characteristic(seq[i])` for the in-range indices the slicer
touches; the default (the head element) is never selected at an in-range
index. -/
def chAtD {α : Type} (s : List α) (x : α) (ch : α → Int) (i : Nat) : Int :=
  ch (s.getD i x)

/-- The start index of the Python slice in `slice_monotonic_sequence`:
`llower = bisect(lower, <)` followed by the
`if characteristic(seq[llower]) < lower: llower += 1` adjustment. -/
def sliceLowerIdx {α : Type} (s : List α) (x : α) (lower : Int) (ch : α → Int) :
    Nat :=
  let ll0 := bisectRun (chAtD s x ch) lower (fun a b => decide (a < b)) s.length
  if chAtD s x ch ll0 < lower then ll0 + 1 else ll0

/-- The stop index of the Python slice in `slice_monotonic_sequence`:
`uupper = bisect(upper, <=)` followed by the
`if characteristic(seq[uupper]) <= upper: uupper += 1` adjustment. -/
def sliceUpperIdx {α : Type} (s : List α) (x : α) (upper : Int) (ch : α → Int) :
    Nat :=
  let uu0 := bisectRun (chAtD s x ch) upper (fun a b => decide (a ≤ b)) s.length
  if chAtD s x ch uu0 ≤ upper then uu0 + 1 else uu0

/-- `def slice_monotonic_sequence(seq, lower, upper, characteristic)`.
On the empty sequence the first guard `characteristic(seq[len(seq) - 1])`
evaluates `seq[-1]` and raises `IndexError`.  Otherwise the fast-path
guards, the two bisections (named `sliceLowerIdx` / `sliceUpperIdx` above)
and the final Python slice `seq[llower:uupper]` are transcribed one for
one (`seq[a:b]` is `drop a` then `take (b - a)`). -/
def slice_monotonic_sequence {α : Type} (seq : List α) (lower upper : Int)
    (characteristic : α → Int) : Except PyErr (List α) :=
  match seq with
  | [] => .error .indexError
  | x :: xs =>
    let s := x :: xs
    if chAtD s x characteristic (s.length - 1) < lower then .ok []
    else if upper ≤ chAtD s x characteristic 0 then .ok []
    else
      let llower := sliceLowerIdx s x lower characteristic
      let uupper := sliceUpperIdx s x upper characteristic
      .ok ((s.drop llower).take (uupper - llower))

/-- One iteration of the loop in `generate_statistics`:
`if not i in res: res[i] = Statistic(i)` followed by
`res[i].count += rec.count`.  After the first statement the key is always
present, so the fallback arm of the match is unreachable. -/
def genStep (res : List (Item × Statistic)) (rec : ItemRecord) :
    List (Item × Statistic) :=
  let res1 :=
    if (assocLookup res rec.item).isNone then
      assocSet res rec.item (Statistic.mk rec.item 0)
    else res
  match assocLookup res1 rec.item with
  | some st => assocSet res1 rec.item (Statistic.mk st.item (st.count + rec.count))
  | none => res1

/-- `def generate_statistics(records)`: fold the per-record update over an
initially empty mapping. -/
def generate_statistics (records : List ItemRecord) : List (Item × Statistic) :=
  records.foldl genStep []

/-- `def find_between_dates(records_seq, begin, end)`. -/
def find_between_dates (records_seq : List ItemRecord) (b e : Int) :
    Except PyErr (List ItemRecord) :=
  slice_monotonic_sequence records_seq b e (fun x => x.date)

/-- `class Store`: the field `total` models `self._total` (set to 0 in
`__init__` and read by the method `total()`, which returns it verbatim —
the field accessor below plays the role of both). -/
structure Store where
  total : Int
  items : List (String × Item)
  statistics : List (Item × Statistic)
  stock_records : List ItemRecord
  sales_records : List ItemRecord
  deriving DecidableEq, Repr

/-- `Store.__init__`: empty registry, empty cache, empty logs, zero total. -/
def Store.init : Store :=
  { total := 0, items := [], statistics := [], stock_records := [],
    sales_records := [] }

/-- `Store.new_statistic`: `self._statistics[item] = Statistic(item)`. -/
def Store.new_statistic (s : Store) (item : Item) : Store :=
  { s with statistics := assocSet s.statistics item (Statistic.mk item 0) }

/-- `Store.update_statistic`: `self._statistics[item].count += dcount`.
A missing key would raise `KeyError` (it never does on reachable stores). -/
def Store.update_statistic (s : Store) (item : Item) (dcount : Int) :
    Except PyErr Unit × Store :=
  match assocLookup s.statistics item with
  | none => (.error .keyError, s)
  | some st =>
    (.ok (),
     { s with statistics :=
         assocSet s.statistics item (Statistic.mk st.item (st.count + dcount)) })

/-- `Store.add_item`: return the known item when the price matches, raise
`PriceMismatchError` when it differs, and otherwise register a fresh
`Item(name, price)` together with its zeroed statistic.  (The `isinstance`
guard on `name` is enforced by the `String` type here.) -/
def Store.add_item (s : Store) (name : String) (price : Int) :
    Except PyErr Item × Store :=
  match assocLookup s.items name with
  | some i =>
    if i.price ≠ price then (.error .priceMismatch, s) else (.ok i, s)
  | none =>
    let i : Item := ⟨name, price⟩
    (.ok i, Store.new_statistic { s with items := s.items ++ [(name, i)] } i)

/-- `Store.find_item`: lookup by name, `ItemUnknownError` when absent. -/
def Store.find_item (s : Store) (name : String) : Except PyErr Item :=
  match assocLookup s.items name with
  | some i => .ok i
  | none => .error .itemUnknown

/-- `Store.stock(name, count, price)`: `add_item`, append a `StockRecord`
stamped with the current time (passed here as `now`), then
`update_statistic(i, count)`.  Both merge-conflict drafts of the source
run exactly this path whenever a price is supplied. -/
def Store.stock (s : Store) (name : String) (count price now : Int) :
    Except PyErr Unit × Store :=
  match Store.add_item s name price with
  | (.error e, s') => (.error e, s')
  | (.ok i, s') =>
    let s'' := { s' with stock_records := s'.stock_records ++ [⟨i, count, now⟩] }
    Store.update_statistic s'' i count

/-- `Store.sell(name, count)`: `find_item`, the out-of-stock guard
`self._statistics[i].count < count`, then append a `SalesRecord` and
`update_statistic(i, -count)`. -/
def Store.sell (s : Store) (name : String) (count now : Int) :
    Except PyErr Unit × Store :=
  match Store.find_item s name with
  | .error e => (.error e, s)
  | .ok i =>
    match assocLookup s.statistics i with
    | none => (.error .keyError, s)
    | some st =>
      if st.count < count then (.error .outOfStock, s)
      else
        let s' := { s with sales_records := s.sales_records ++ [⟨i, count, now⟩] }
        Store.update_statistic s' i (-count)

/-- The single-name branch of `Store.statistic`: `isinstance(names, str)`
leads to `find_item` followed by `self._statistics[i]`. -/
def Store.statistic_single (s : Store) (name : String) : Except PyErr Statistic :=
  match Store.find_item s name with
  | .error e => .error e
  | .ok i =>
    match assocLookup s.statistics i with
    | some st => .ok st
    | none => .error .keyError

/-- The default `begin` argument `datetime(1, 1, 1)` of the period queries,
encoded on the integer timestamp axis. -/
def MINDATE : Int := 0

/-- The default `end` argument `datetime(9999, 12, 31, 23, 59, 59)` of the
period queries, encoded on the integer timestamp axis; every timestamp a
running program ever stamps lies strictly below it. -/
def MAXDATE : Int := 253402300799

/-- `Store.stock_history_over_period(begin, end)`. -/
def Store.stock_history_over_period (s : Store) (b e : Int) :
    Except PyErr (List ItemRecord) :=
  find_between_dates s.stock_records b e

/-- `Store.sales_history_over_period(begin, end)`. -/
def Store.sales_history_over_period (s : Store) (b e : Int) :
    Except PyErr (List ItemRecord) :=
  find_between_dates s.sales_records b e

/-- `Store.stock_statistics_over_period(begin, end)`:
`generate_statistics` over the stock history (an exception from the
history query propagates). -/
def Store.stock_statistics_over_period (s : Store) (b e : Int) :
    Except PyErr (List (Item × Statistic)) :=
  (Store.stock_history_over_period s b e).map generate_statistics

/-- `Store.sales_statistics_over_period(begin, end)`. -/
def Store.sales_statistics_over_period (s : Store) (b e : Int) :
    Except PyErr (List (Item × Statistic)) :=
  (Store.sales_history_over_period s b e).map generate_statistics

/-- `stock_statistics_over_period` invoked with both default arguments. -/
def Store.stock_statistics_default (s : Store) :
    Except PyErr (List (Item × Statistic)) :=
  Store.stock_statistics_over_period s MINDATE MAXDATE

/-- `stock_history_over_period` invoked with both default arguments. -/
def Store.stock_history_default (s : Store) : Except PyErr (List ItemRecord) :=
  Store.stock_history_over_period s MINDATE MAXDATE

/-- The states a `Store` can reach from construction through the mutating
public operations (`stock` and `sell`; the read-only operations do not
change the state).  A call is a step whether it succeeds or raises — the
returned state after an error is the pre-call state in this code. -/
inductive Store.Reachable : Store → Prop where
  | init : Store.Reachable Store.init
  | stock {s s' : Store} {name : String} {count price now : Int}
      {r : Except PyErr Unit} : Store.Reachable s →
      Store.stock s name count price now = (r, s') → Store.Reachable s'
  | sell {s s' : Store} {name : String} {count now : Int}
      {r : Except PyErr Unit} : Store.Reachable s →
      Store.sell s name count now = (r, s') → Store.Reachable s'

/-- The count recorded for an item in a statistics mapping, zero when the
item has no entry. -/
def countOf (m : List (Item × Statistic)) (i : Item) : Int :=
  match assocLookup m i with
  | some st => st.count
  | none => 0

/-- The sum of the counts of the records of one item in a record list. -/
def sumFor (records : List ItemRecord) (i : Item) : Int :=
  (records.map (fun r => if r.item = i then r.count else 0)).sum

/-- The value the spec calls the grand total: the sum over the statistics
cache of `count * price`. -/
def cacheTotal (s : Store) : Int :=
  (s.statistics.map (fun p => p.2.count * p.1.price)).sum

/-! ### Association-list lemmas -/

theorem assocLookup_append {κ β : Type} [DecidableEq κ] (m₁ m₂ : List (κ × β))
    (j : κ) :
    assocLookup (m₁ ++ m₂) j =
      match assocLookup m₁ j with
      | some v => some v
      | none => assocLookup m₂ j := by
  induction m₁ with
  | nil => simp [assocLookup]
  | cons p rest ih =>
    obtain ⟨k', v'⟩ := p
    by_cases h : k' = j
    · simp [assocLookup, h]
    · simp [assocLookup, h, ih]

theorem lookup_replace_self {κ β : Type} [DecidableEq κ] (m : List (κ × β))
    (k : κ) (v : β) (h : (assocLookup m k).isSome) :
    assocLookup (m.map (fun p => if p.1 = k then (k, v) else p)) k = some v := by
  induction m with
  | nil => simp [assocLookup] at h
  | cons p rest ih =>
    obtain ⟨k', w⟩ := p
    rw [List.map_cons]
    by_cases hk : k' = k
    · subst hk
      have hh : (if (k', w).1 = k' then ((k', v) : κ × β) else (k', w)) = (k', v) :=
        if_pos rfl
      rw [hh]
      simp [assocLookup]
    · have hh : (if (k', w).1 = k then ((k, v) : κ × β) else (k', w)) = (k', w) :=
        if_neg hk
      rw [hh]
      simp only [assocLookup, if_neg hk]
      simp only [assocLookup, if_neg hk] at h
      exact ih h

theorem lookup_replace_ne {κ β : Type} [DecidableEq κ] (m : List (κ × β))
    (k : κ) (v : β) (j : κ) (hj : j ≠ k) :
    assocLookup (m.map (fun p => if p.1 = k then (k, v) else p)) j =
      assocLookup m j := by
  induction m with
  | nil => simp
  | cons p rest ih =>
    obtain ⟨k', w⟩ := p
    rw [List.map_cons]
    by_cases hk : k' = k
    · subst hk
      have hkj : ¬ k' = j := fun hh => hj hh.symm
      have hh : (if (k', w).1 = k' then ((k', v) : κ × β) else (k', w)) = (k', v) :=
        if_pos rfl
      rw [hh]
      simp only [assocLookup, if_neg hkj]
      exact ih
    · have hh : (if (k', w).1 = k then ((k, v) : κ × β) else (k', w)) = (k', w) :=
        if_neg hk
      rw [hh]
      by_cases hkj : k' = j
      · simp only [assocLookup, if_pos hkj]
      · simp only [assocLookup, if_neg hkj]
        exact ih

theorem assocLookup_set_self {κ β : Type} [DecidableEq κ] (m : List (κ × β))
    (k : κ) (v : β) : assocLookup (assocSet m k v) k = some v := by
  unfold assocSet
  by_cases h : (assocLookup m k).isSome
  · simp [h, lookup_replace_self m k v h]
  · rw [if_neg h, assocLookup_append]
    rw [Option.not_isSome_iff_eq_none] at h
    simp [h, assocLookup]

theorem assocLookup_set_ne {κ β : Type} [DecidableEq κ] (m : List (κ × β))
    (k : κ) (v : β) (j : κ) (hj : j ≠ k) :
    assocLookup (assocSet m k v) j = assocLookup m j := by
  unfold assocSet
  by_cases h : (assocLookup m k).isSome
  · simp [h, lookup_replace_ne m k v j hj]
  · rw [if_neg h, assocLookup_append]
    have hkj : ¬ k = j := fun hh => hj hh.symm
    cases hmj : assocLookup m j <;> simp [assocLookup, hkj]

theorem assocLookup_set_isSome {κ β : Type} [DecidableEq κ] (m : List (κ × β))
    (k : κ) (v : β) (j : κ) :
    (assocLookup (assocSet m k v) j).isSome = true ↔
      ((assocLookup m j).isSome = true ∨ j = k) := by
  by_cases hj : j = k
  · subst hj; simp [assocLookup_set_self]
  · simp [assocLookup_set_ne m k v j hj, hj]

/-! ### The bisection loop invariant -/

theorem bisectGo_spec (chAt : Nat → Int) (needle : Int)
    (cmpr : Int → Int → Bool) (fuel : Nat) :
    ∀ start stop : Nat, start < stop → stop - start ≤ fuel + 1 →
    start ≤ bisectGo chAt needle cmpr fuel start stop ∧
    bisectGo chAt needle cmpr fuel start stop < stop ∧
    (cmpr (chAt (bisectGo chAt needle cmpr fuel start stop)) needle = true ∨
      bisectGo chAt needle cmpr fuel start stop = start) ∧
    (bisectGo chAt needle cmpr fuel start stop + 1 = stop ∨
      cmpr (chAt (bisectGo chAt needle cmpr fuel start stop + 1)) needle
        = false) := by
  induction fuel with
  | zero =>
    intro start stop h1 h2
    have hs : stop = start + 1 := by omega
    subst hs
    simp [bisectGo]
  | succ fuel ih =>
    intro start stop h1 h2
    by_cases hc : start + 1 ≥ stop
    · have hs : stop = start + 1 := by omega
      subst hs
      simp [bisectGo]
    · have hm1 : start < (start + stop) / 2 := by omega
      have hm2 : (start + stop) / 2 < stop := by omega
      simp only [bisectGo, if_neg hc]
      by_cases hcm : cmpr (chAt ((start + stop) / 2)) needle = true
      · rw [if_pos hcm]
        obtain ⟨ha, hb, hcp, hd⟩ := ih ((start + stop) / 2) stop hm2 (by omega)
        refine ⟨by omega, hb, ?_, hd⟩
        rcases hcp with h | h
        · exact Or.inl h
        · rw [h]; exact Or.inl hcm
      · rw [if_neg hcm]
        obtain ⟨ha, hb, hcp, hd⟩ := ih start ((start + stop) / 2) hm1 (by omega)
        refine ⟨ha, by omega, hcp, ?_⟩
        rcases hd with h | h
        · rw [h]
          exact Or.inr (by rwa [Bool.not_eq_true] at hcm)
        · exact Or.inr h

theorem bisectRun_spec (chAt : Nat → Int) (needle : Int)
    (cmpr : Int → Int → Bool) (len : Nat) (hlen : 0 < len) :
    bisectRun chAt needle cmpr len < len ∧
    (cmpr (chAt (bisectRun chAt needle cmpr len)) needle = true ∨
      bisectRun chAt needle cmpr len = 0) ∧
    (bisectRun chAt needle cmpr len + 1 = len ∨
      cmpr (chAt (bisectRun chAt needle cmpr len + 1)) needle = false) := by
  obtain ⟨_, hb, hc, hd⟩ :=
    bisectGo_spec chAt needle cmpr len 0 len hlen (by omega)
  exact ⟨hb, hc, hd⟩

/-! ### Slicer lemmas -/

theorem chAtD_eq_get {α : Type} (s : List α) (x : α) (ch : α → Int) (i : Nat)
    (hi : i < s.length) : chAtD s x ch i = ch (s.get ⟨i, hi⟩) := by
  unfold chAtD
  rw [List.getD_eq_getElem s x hi, List.get_eq_getElem]

theorem pairwise_mono {α : Type} (s : List α) (ch : α → Int)
    (hs : s.Pairwise (fun a b => ch a ≤ ch b)) (i j : Nat) (hi : i < s.length)
    (hj : j < s.length) (hij : i ≤ j) :
    ch (s.get ⟨i, hi⟩) ≤ ch (s.get ⟨j, hj⟩) := by
  rcases Nat.eq_or_lt_of_le hij with h | h
  · subst h; exact le_refl _
  · have := List.pairwise_iff_getElem.mp hs i j hi hj h
    simpa [List.get_eq_getElem] using this

theorem sliceLowerIdx_le {α : Type} (s : List α) (x : α) (lower : Int)
    (ch : α → Int) (hs : s.Pairwise (fun a b => ch a ≤ ch b)) (k : Nat)
    (hk : k < s.length) (hLk : sliceLowerIdx s x lower ch ≤ k) :
    lower ≤ ch (s.get ⟨k, hk⟩) := by
  have hlen : 0 < s.length := by omega
  unfold sliceLowerIdx at hLk
  set b := bisectRun (chAtD s x ch) lower (fun a c => decide (a < c)) s.length
    with hbdef
  obtain ⟨hblt, _, hnext⟩ :=
    bisectRun_spec (chAtD s x ch) lower (fun a c => decide (a < c)) s.length hlen
  rw [← hbdef] at hblt hnext
  by_cases hadj : chAtD s x ch b < lower
  · rw [if_pos hadj] at hLk
    rcases hnext with h | h
    · omega
    · have hb1 : b + 1 < s.length := by omega
      have hge : lower ≤ chAtD s x ch (b + 1) := by
        rcases lt_or_le (chAtD s x ch (b + 1)) lower with hx | hx
        · rw [decide_eq_false_iff_not] at h; exact absurd hx h
        · exact hx
      rw [chAtD_eq_get s x ch (b + 1) hb1] at hge
      exact le_trans hge (pairwise_mono s ch hs (b + 1) k hb1 hk hLk)
  · rw [if_neg hadj] at hLk
    have hge : lower ≤ chAtD s x ch b := le_of_not_lt hadj
    rw [chAtD_eq_get s x ch b hblt] at hge
    exact le_trans hge (pairwise_mono s ch hs b k hblt hk hLk)

theorem sliceUpperIdx_ge {α : Type} (s : List α) (x : α) (upper : Int)
    (ch : α → Int) (hs : s.Pairwise (fun a b => ch a ≤ ch b)) (k : Nat)
    (hk : k < s.length) (hkU : k < sliceUpperIdx s x upper ch) :
    ch (s.get ⟨k, hk⟩) ≤ upper := by
  have hlen : 0 < s.length := by omega
  unfold sliceUpperIdx at hkU
  set u := bisectRun (chAtD s x ch) upper (fun a c => decide (a ≤ c)) s.length
    with hudef
  obtain ⟨hult, hpred, _⟩ :=
    bisectRun_spec (chAtD s x ch) upper (fun a c => decide (a ≤ c)) s.length hlen
  rw [← hudef] at hult hpred
  by_cases hadj : chAtD s x ch u ≤ upper
  · rw [if_pos hadj] at hkU
    have hku : k ≤ u := by omega
    rw [chAtD_eq_get s x ch u hult] at hadj
    exact le_trans (pairwise_mono s ch hs k u hk hult hku) hadj
  · rw [if_neg hadj] at hkU
    rcases hpred with h | h
    · rw [decide_eq_true_eq] at h; exact absurd h hadj
    · omega

theorem slice_monotonic_sound {α : Type} (seq : List α) (lower upper : Int)
    (ch : α → Int) (hs : seq.Pairwise (fun a b => ch a ≤ ch b)) (r : List α)
    (hr : slice_monotonic_sequence seq lower upper ch = .ok r) :
    r.Pairwise (fun a b => ch a ≤ ch b) ∧
      ∀ e ∈ r, lower ≤ ch e ∧ ch e ≤ upper := by
  cases seq with
  | nil => simp [slice_monotonic_sequence] at hr
  | cons x xs =>
    simp only [slice_monotonic_sequence] at hr
    by_cases h1 : chAtD (x :: xs) x ch ((x :: xs).length - 1) < lower
    · rw [if_pos h1] at hr
      obtain rfl : ([] : List α) = r := by injection hr
      exact ⟨List.Pairwise.nil, by intro e he; cases he⟩
    · rw [if_neg h1] at hr
      by_cases h2 : upper ≤ chAtD (x :: xs) x ch 0
      · rw [if_pos h2] at hr
        obtain rfl : ([] : List α) = r := by injection hr
        exact ⟨List.Pairwise.nil, by intro e he; cases he⟩
      · rw [if_neg h2] at hr
        set L := sliceLowerIdx (x :: xs) x lower ch with hLdef
        set U := sliceUpperIdx (x :: xs) x upper ch with hUdef
        obtain rfl : ((x :: xs).drop L).take (U - L) = r := by injection hr
        constructor
        · exact hs.sublist ((List.take_sublist _ _).trans (List.drop_sublist _ _))
        · intro e he
          obtain ⟨⟨i, hi⟩, hie⟩ := List.mem_iff_get.mp he
          have hi' := hi
          rw [List.length_take, List.length_drop] at hi'
          have hiU : i < U - L := lt_of_lt_of_le hi' (min_le_left _ _)
          have hiL : i < (x :: xs).length - L := lt_of_lt_of_le hi' (min_le_right _ _)
          have hk : L + i < (x :: xs).length := by omega
          have hkU : L + i < U := by omega
          have hee : e = (x :: xs).get ⟨L + i, hk⟩ := by
            rw [← hie, List.get_eq_getElem, List.get_eq_getElem]
            rw [List.getElem_take ((x :: xs).drop L), List.getElem_drop (x :: xs)]
          rw [hee]
          exact ⟨sliceLowerIdx_le (x :: xs) x lower ch hs (L + i) hk
                   (Nat.le_add_right L i),
                 sliceUpperIdx_ge (x :: xs) x upper ch hs (L + i) hk hkU⟩

theorem slice_monotonic_full {α : Type} (seq : List α) (lower upper : Int)
    (ch : α → Int) (hne : seq ≠ [])
    (hall : ∀ e ∈ seq, lower ≤ ch e ∧ ch e < upper) :
    slice_monotonic_sequence seq lower upper ch = .ok seq := by
  cases seq with
  | nil => exact absurd rfl hne
  | cons x xs =>
    have hAt : ∀ i : Nat,
        lower ≤ chAtD (x :: xs) x ch i ∧ chAtD (x :: xs) x ch i < upper := by
      intro i
      unfold chAtD
      apply hall
      by_cases hi : i < (x :: xs).length
      · rw [List.getD_eq_getElem _ _ hi]
        exact List.getElem_mem hi
      · rw [List.getD_eq_default _ _ (by omega)]
        exact List.mem_cons_self x xs
    have h1 : ¬ chAtD (x :: xs) x ch ((x :: xs).length - 1) < lower :=
      not_lt_of_le (hAt _).1
    have h2 : ¬ upper ≤ chAtD (x :: xs) x ch 0 := not_le_of_lt (hAt 0).2
    have hlen : 0 < (x :: xs).length := by simp
    have hL : sliceLowerIdx (x :: xs) x lower ch = 0 := by
      unfold sliceLowerIdx
      set b := bisectRun (chAtD (x :: xs) x ch) lower
        (fun a c => decide (a < c)) (x :: xs).length with hbdef
      obtain ⟨hblt, hpred, _⟩ := bisectRun_spec (chAtD (x :: xs) x ch) lower
        (fun a c => decide (a < c)) (x :: xs).length hlen
      rw [← hbdef] at hblt hpred
      have hb0 : b = 0 := by
        rcases hpred with h | h
        · rw [decide_eq_true_eq] at h
          exact absurd h (not_lt_of_le (hAt b).1)
        · exact h
      rw [hb0, if_neg (not_lt_of_le (hAt 0).1)]
    have hU : sliceUpperIdx (x :: xs) x upper ch = (x :: xs).length := by
      unfold sliceUpperIdx
      set u := bisectRun (chAtD (x :: xs) x ch) upper
        (fun a c => decide (a ≤ c)) (x :: xs).length with hudef
      obtain ⟨hult, _, hnext⟩ := bisectRun_spec (chAtD (x :: xs) x ch) upper
        (fun a c => decide (a ≤ c)) (x :: xs).length hlen
      rw [← hudef] at hult hnext
      have hu1 : u + 1 = (x :: xs).length := by
        rcases hnext with h | h
        · exact h
        · rw [decide_eq_false_iff_not] at h
          exact absurd (le_of_lt (hAt (u + 1)).2) h
      rw [if_pos (le_of_lt (hAt u).2)]
      exact hu1
    simp only [slice_monotonic_sequence]
    rw [if_neg h1, if_neg h2, hL, hU]
    simp

/-! ### Aggregation lemmas -/

theorem countOf_set (m : List (Item × Statistic)) (k : Item) (v : Statistic)
    (i : Item) :
    countOf (assocSet m k v) i = if k = i then v.count else countOf m i := by
  by_cases hi : k = i
  · subst hi
    simp [countOf, assocLookup_set_self]
  · simp [countOf, assocLookup_set_ne _ _ _ i (fun hh => hi hh.symm), hi]

theorem countOf_genStep (res : List (Item × Statistic)) (rec : ItemRecord)
    (i : Item) :
    countOf (genStep res rec) i =
      countOf res i + (if rec.item = i then rec.count else 0) := by
  unfold genStep
  cases hlook : assocLookup res rec.item with
  | some st =>
    simp only [Option.isNone_some, Bool.false_eq_true, if_false]
    rw [hlook]
    rw [countOf_set]
    by_cases hi : rec.item = i
    · subst hi
      rw [if_pos rfl, if_pos rfl]
      simp [countOf, hlook]
    · rw [if_neg hi, if_neg hi]
      simp
  | none =>
    simp only [Option.isNone_none, if_true]
    rw [assocLookup_set_self]
    rw [countOf_set, countOf_set]
    by_cases hi : rec.item = i
    · subst hi
      simp [countOf, hlook]
    · simp [hi, countOf]

theorem countOf_foldl (l : List ItemRecord) :
    ∀ (acc : List (Item × Statistic)) (i : Item),
      countOf (l.foldl genStep acc) i = countOf acc i + sumFor l i := by
  induction l with
  | nil =>
    intro acc i
    simp [sumFor]
  | cons r rest ih =>
    intro acc i
    rw [List.foldl_cons, ih (genStep acc r) i, countOf_genStep]
    simp [sumFor]
    omega

theorem generate_statistics_count (records : List ItemRecord) (i : Item) :
    countOf (generate_statistics records) i = sumFor records i := by
  have h := countOf_foldl records [] i
  simpa [generate_statistics, countOf, assocLookup] using h

/-! ### Store invariants -/

/-- Every registered item is stored under its own name. -/
def NameConsist (s : Store) : Prop :=
  ∀ n i, assocLookup s.items n = some i → i.name = n

/-- The key set of the statistics cache is exactly the set of registered
items. -/
def KeySetEq (s : Store) : Prop :=
  ∀ i : Item, (∃ n, assocLookup s.items n = some i) ↔
    (assocLookup s.statistics i).isSome = true

/-- The invariant maintained by every public operation. -/
def StoreInv (s : Store) : Prop := NameConsist s ∧ KeySetEq s

theorem storeInv_init : StoreInv Store.init := by
  constructor
  · intro n i h
    simp [Store.init, assocLookup] at h
  · intro i
    simp [Store.init, assocLookup]

theorem lookup_append_single {κ β : Type} [DecidableEq κ] (m : List (κ × β))
    (k : κ) (v : β) (j : κ) :
    assocLookup (m ++ [(k, v)]) j =
      match assocLookup m j with
      | some w => some w
      | none => if k = j then some v else none := by
  rw [assocLookup_append]
  cases assocLookup m j <;> simp [assocLookup]

theorem exists_lookup_append_single {κ β : Type} [DecidableEq κ]
    (m : List (κ × β)) (k : κ) (v : β) (hm : assocLookup m k = none) (j : β) :
    (∃ n, assocLookup (m ++ [(k, v)]) n = some j) ↔
      ((∃ n, assocLookup m n = some j) ∨ j = v) := by
  constructor
  · rintro ⟨n, hn⟩
    rw [lookup_append_single m k v n] at hn
    cases hmn : assocLookup m n with
    | some w =>
      rw [hmn] at hn
      injection hn with hw
      subst hw
      exact Or.inl ⟨n, hmn⟩
    | none =>
      rw [hmn] at hn
      by_cases hk : k = n
      · rw [if_pos hk] at hn
        injection hn with hw
        exact Or.inr hw.symm
      · rw [if_neg hk] at hn
        cases hn
  · rintro (⟨n, hn⟩ | hjv)
    · exact ⟨n, by rw [lookup_append_single m k v n, hn]⟩
    · exact ⟨k, by rw [lookup_append_single m k v k, hm, if_pos rfl, hjv]⟩

theorem storeInv_add_item (s : Store) (name : String) (price : Int)
    (h : StoreInv s) (r : Except PyErr Item) (s' : Store)
    (hadd : Store.add_item s name price = (r, s')) : StoreInv s' := by
  cases hlook : assocLookup s.items name with
  | some i =>
    simp only [Store.add_item, hlook] at hadd
    by_cases hp : i.price ≠ price
    · rw [if_pos hp] at hadd
      injection hadd with h1 h2
      subst h2
      exact h
    · rw [if_neg hp] at hadd
      injection hadd with h1 h2
      subst h2
      exact h
  | none =>
    simp only [Store.add_item, hlook] at hadd
    injection hadd with h1 h2
    subst h2
    constructor
    · intro n i hn
      rw [show (Store.new_statistic
            { s with items := s.items ++ [(name, ⟨name, price⟩)] }
            ⟨name, price⟩).items = s.items ++ [(name, ⟨name, price⟩)] from rfl,
          lookup_append_single s.items name ⟨name, price⟩ n] at hn
      cases hmn : assocLookup s.items n with
      | some w =>
        rw [hmn] at hn
        injection hn with hw
        subst hw
        exact h.1 n _ hmn
      | none =>
        rw [hmn] at hn
        by_cases hname : name = n
        · rw [if_pos hname] at hn
          injection hn with hw
          subst hw
          exact hname
        · rw [if_neg hname] at hn
          cases hn
    · intro j
      rw [show (Store.new_statistic
            { s with items := s.items ++ [(name, ⟨name, price⟩)] }
            ⟨name, price⟩).statistics =
          assocSet s.statistics ⟨name, price⟩ ⟨⟨name, price⟩, 0⟩ from rfl]
      rw [show (Store.new_statistic
            { s with items := s.items ++ [(name, ⟨name, price⟩)] }
            ⟨name, price⟩).items = s.items ++ [(name, ⟨name, price⟩)] from rfl]
      rw [exists_lookup_append_single s.items name ⟨name, price⟩ hlook j]
      rw [assocLookup_set_isSome]
      exact or_congr (h.2 j) Iff.rfl

theorem storeInv_update_statistic (s : Store) (item : Item) (d : Int)
    (h : StoreInv s) (r : Except PyErr Unit) (s' : Store)
    (hup : Store.update_statistic s item d = (r, s')) : StoreInv s' := by
  cases hlook : assocLookup s.statistics item with
  | none =>
    simp only [Store.update_statistic, hlook] at hup
    injection hup with h1 h2
    subst h2
    exact h
  | some st =>
    simp only [Store.update_statistic, hlook] at hup
    injection hup with h1 h2
    subst h2
    constructor
    · exact h.1
    · intro j
      show (∃ n, assocLookup s.items n = some j) ↔
        (assocLookup (assocSet s.statistics item ⟨st.item, st.count + d⟩)
          j).isSome = true
      rw [assocLookup_set_isSome]
      rw [h.2 j]
      constructor
      · exact Or.inl
      · rintro (hj | rfl)
        · exact hj
        · rw [hlook]
          rfl

theorem storeInv_stock (s : Store) (name : String) (count price now : Int)
    (h : StoreInv s) (r : Except PyErr Unit) (s' : Store)
    (hst : Store.stock s name count price now = (r, s')) : StoreInv s' := by
  cases hadd : Store.add_item s name price with
  | mk ra sa =>
    cases ra with
    | error e =>
      simp only [Store.stock, hadd] at hst
      injection hst with h1 h2
      subst h2
      exact storeInv_add_item s name price h _ _ hadd
    | ok i =>
      simp only [Store.stock, hadd] at hst
      have hinv1 : StoreInv sa := storeInv_add_item s name price h _ _ hadd
      have hinv2 : StoreInv
          { sa with stock_records := sa.stock_records ++ [⟨i, count, now⟩] } := by
        exact hinv1
      exact storeInv_update_statistic _ i count hinv2 r s' hst

theorem storeInv_sell (s : Store) (name : String) (count now : Int)
    (h : StoreInv s) (r : Except PyErr Unit) (s' : Store)
    (hsl : Store.sell s name count now = (r, s')) : StoreInv s' := by
  cases hfind : Store.find_item s name with
  | error e =>
    simp only [Store.sell, hfind] at hsl
    injection hsl with h1 h2
    subst h2
    exact h
  | ok i =>
    cases hlook : assocLookup s.statistics i with
    | none =>
      simp only [Store.sell, hfind, hlook] at hsl
      injection hsl with h1 h2
      subst h2
      exact h
    | some st =>
      simp only [Store.sell, hfind, hlook] at hsl
      by_cases hcnt : st.count < count
      · rw [if_pos hcnt] at hsl
        injection hsl with h1 h2
        subst h2
        exact h
      · rw [if_neg hcnt] at hsl
        have hinv2 : StoreInv
            { s with sales_records := s.sales_records ++ [⟨i, count, now⟩] } := by
          exact h
        exact storeInv_update_statistic _ i (-count) hinv2 r s' hsl

theorem reachable_storeInv (s : Store) (h : Store.Reachable s) : StoreInv s := by
  induction h with
  | init => exact storeInv_init
  | stock hr hst ih => exact storeInv_stock _ _ _ _ _ ih _ _ hst
  | sell hr hst ih => exact storeInv_sell _ _ _ _ ih _ _ hst

/-! ### Claims -/

/-- Claim C1: the spec asserts half-open semantics — every element with
characteristic equal to `upper` is excluded and `lower == upper` yields the
empty result.  The code instead compares with `<=` when adjusting the upper
boundary, so on the monotone sequence `[1, 2, 3]` with bounds `[1, 3)` it
returns all three elements, including the one whose characteristic equals
`upper`, and on `[1, 5]` with `lower == upper == 5` it returns `[5]`
instead of the empty slice. -/
theorem claim1_upper_bound_included :
    slice_monotonic_sequence [(1 : Int), 2, 3] 1 3 (fun v => v) =
      .ok [1, 2, 3] ∧
    slice_monotonic_sequence [(1 : Int), 5] 5 5 (fun v => v) = .ok [5] :=
  ⟨rfl, rfl⟩

/-- Claim C2: the spec asserts `total()` always equals the sum over all
items of `count * price`.  The code initializes `self._total = 0` and never
updates it, so after `stock("widget", 5, 10.0)` the grand total the spec
prescribes is `50` while `total()` still returns `0`. -/
theorem claim2_total_never_updated :
    (Store.stock Store.init "widget" 5 10 0).1 = .ok () ∧
    Store.total (Store.stock Store.init "widget" 5 10 0).2 = 0 ∧
    cacheTotal (Store.stock Store.init "widget" 5 10 0).2 = 50 ∧
    Store.total (Store.stock Store.init "widget" 5 10 0).2 ≠
      cacheTotal (Store.stock Store.init "widget" 5 10 0).2 :=
  ⟨rfl, rfl, rfl, by decide⟩

/-- Claim C3: the spec asserts `Statistic.total == Statistic.count *
Item.price` at every reachable state.  The property reads
`self._item * self.count` — it multiplies the `Item` object itself, not its
price, which raises `TypeError` in Python — so even for the reachable
statistic of five 10-priced widgets, `total` yields an error and never the
value `5 * 10`. -/
theorem claim3_statistic_total_raises :
    Store.statistic_single (Store.stock Store.init "widget" 5 10 0).2
      "widget" = .ok ⟨⟨"widget", 10⟩, 5⟩ ∧
    Statistic.total ⟨⟨"widget", 10⟩, 5⟩ = .error .typeError ∧
    ∀ v : Int, Statistic.total ⟨⟨"widget", 10⟩, 5⟩ ≠ .ok v :=
  ⟨rfl, rfl, fun _ h => Except.noConfusion h⟩

/-- Claim C4: the spec declares the empty sequence a valid input on which
the slicer, and hence the history queries of an empty store, return empty.
The code's first guard evaluates `seq[len(seq) - 1]`, which on an empty
Python list is `seq[-1]` and raises `IndexError`; a fresh store's history
query propagates that error instead of returning an empty list. -/
theorem claim4_empty_sequence_raises :
    (∀ (lower upper : Int) (ch : ItemRecord → Int),
      slice_monotonic_sequence [] lower upper ch = .error .indexError) ∧
    Store.stock_history_default Store.init = .error .indexError ∧
    Store.sales_history_over_period Store.init MINDATE MAXDATE =
      .error .indexError :=
  ⟨fun _ _ _ => rfl, rfl, rfl⟩

/-- Claim C5: on any store state whose registry resolves `name` to an item
whose cached statistic holds count `c`, selling more than `c` fails with
`OutOfStock` and returns the store exactly as it was (no record appended,
count unchanged), while selling at most `c` appends exactly one sales
record and decreases the cached count by the sold amount. -/
theorem claim5_sell_guard (s : Store) (name : String) (i : Item)
    (st : Statistic) (count now : Int)
    (hf : Store.find_item s name = .ok i)
    (hst : assocLookup s.statistics i = some st) :
    (st.count < count →
      Store.sell s name count now = (.error .outOfStock, s)) ∧
    (count ≤ st.count →
      Store.sell s name count now =
        (.ok (), { s with
          sales_records := s.sales_records ++ [⟨i, count, now⟩],
          statistics := assocSet s.statistics i ⟨st.item, st.count + -count⟩ }) ∧
      assocLookup (Store.sell s name count now).2.statistics i =
        some ⟨st.item, st.count - count⟩) := by
  constructor
  · intro hlt
    simp only [Store.sell, hf, hst, if_pos hlt]
  · intro hle
    have hnlt : ¬ st.count < count := not_lt.mpr hle
    have hmain : Store.sell s name count now =
        (.ok (), { s with
          sales_records := s.sales_records ++ [⟨i, count, now⟩],
          statistics := assocSet s.statistics i ⟨st.item, st.count + -count⟩ }) := by
      simp only [Store.sell, hf, hst, if_neg hnlt, Store.update_statistic]
    refine ⟨hmain, ?_⟩
    rw [hmain]
    show assocLookup (assocSet s.statistics i ⟨st.item, st.count + -count⟩) i =
      some ⟨st.item, st.count - count⟩
    rw [assocLookup_set_self]
    rw [Int.sub_eq_add_neg]

/-- Witness for C5 at a concrete reachable store: five widgets in stock,
selling six fails with `OutOfStock` and leaves the store untouched. -/
theorem claim5_witness :
    Store.sell (Store.stock Store.init "widget" 5 10 0).2 "widget" 6 1 =
      (.error .outOfStock, (Store.stock Store.init "widget" 5 10 0).2) :=
  (claim5_sell_guard (Store.stock Store.init "widget" 5 10 0).2 "widget"
    ⟨"widget", 10⟩ ⟨⟨"widget", 10⟩, 5⟩ 6 1 rfl rfl).1 (by decide)

/-- Claim C6: stocking a registered item again with the same price takes
the `add_item` idempotent path, appends one stock record and accumulates
the cached count; stocking it with a different price raises
`PriceMismatch` and returns the pre-call store (count unchanged, no record
appended).  Concretely, stocking 5 then 3 widgets at price 10 leaves
count 8, and a further stock at price 12 fails leaving the state — hence
the count of 8 — exactly as it was. -/
theorem claim6_restock_and_price_mismatch :
    (∀ (s : Store) (name : String) (i : Item) (st : Statistic)
      (count price now : Int),
      assocLookup s.items name = some i →
      assocLookup s.statistics i = some st →
      (i.price = price →
        Store.stock s name count price now =
          (.ok (), { s with
            stock_records := s.stock_records ++ [⟨i, count, now⟩],
            statistics := assocSet s.statistics i ⟨st.item, st.count + count⟩ })) ∧
      (i.price ≠ price →
        Store.stock s name count price now = (.error .priceMismatch, s))) ∧
    countOf (Store.stock (Store.stock Store.init "widget" 5 10 0).2
      "widget" 3 10 1).2.statistics ⟨"widget", 10⟩ = 8 ∧
    Store.stock (Store.stock (Store.stock Store.init "widget" 5 10 0).2
      "widget" 3 10 1).2 "widget" 1 12 2 =
      (.error .priceMismatch,
        (Store.stock (Store.stock Store.init "widget" 5 10 0).2
          "widget" 3 10 1).2) := by
  refine ⟨?_, rfl, rfl⟩
  intro s name i st count price now hitem hstat
  constructor
  · intro hpr
    have hne : ¬ i.price ≠ price := by simp [hpr]
    simp only [Store.stock, Store.add_item, hitem, if_neg hne,
      Store.update_statistic, hstat]
  · intro hpr
    simp only [Store.stock, Store.add_item, hitem, if_pos hpr]

/-- Witness for C6 at a concrete reachable store: re-stocking the widget
at the mismatched price 12 fails and returns the pre-call store. -/
theorem claim6_witness :
    Store.stock (Store.stock Store.init "widget" 5 10 0).2 "widget" 1 12 1 =
      (.error .priceMismatch, (Store.stock Store.init "widget" 5 10 0).2) :=
  ((claim6_restock_and_price_mismatch.1 (Store.stock Store.init "widget" 5 10 0).2
    "widget" ⟨"widget", 10⟩ ⟨⟨"widget", 10⟩, 5⟩ 1 12 1 rfl rfl).2 (by decide))

/-- Counterexample to C7 as stated: on a store whose (complete) stock
history is empty, `stock_statistics_over_period` with default bounds does
not produce a per-item aggregate at all — the slicer raises `IndexError`
on the empty log. -/
theorem claim7_counterexample :
    Store.stock_statistics_default Store.init = .error .indexError ∧
    ∀ m, Store.stock_statistics_default Store.init ≠ .ok m :=
  ⟨rfl, fun _ h => Except.noConfusion h⟩

/-- Claim C7 (amended to stores with at least one stock record, which the
empty-log `IndexError` forces): with the default bounds the history query
returns the whole log, and the freshly generated aggregate gives every
item exactly the sum of its stock-record counts — the stock-only
contribution to the live cache; the result depends on nothing but the
stock-record log. -/
theorem claim7_full_range_statistics (s : Store)
    (hne : s.stock_records ≠ [])
    (hdates : ∀ r ∈ s.stock_records, MINDATE ≤ r.date ∧ r.date < MAXDATE) :
    Store.stock_statistics_default s =
      .ok (generate_statistics s.stock_records) ∧
    (∀ i : Item, countOf (generate_statistics s.stock_records) i =
      sumFor s.stock_records i) ∧
    (∀ s' : Store, s'.stock_records = s.stock_records →
      Store.stock_statistics_default s' = Store.stock_statistics_default s) := by
  have hh : find_between_dates s.stock_records MINDATE MAXDATE =
      .ok s.stock_records := by
    unfold find_between_dates
    exact slice_monotonic_full s.stock_records MINDATE MAXDATE _ hne hdates
  refine ⟨?_, ?_, ?_⟩
  · unfold Store.stock_statistics_default Store.stock_statistics_over_period
      Store.stock_history_over_period
    rw [hh]
    rfl
  · intro i
    exact generate_statistics_count s.stock_records i
  · intro s' hrec
    unfold Store.stock_statistics_default Store.stock_statistics_over_period
      Store.stock_history_over_period
    rw [hrec]

/-- Witness for C7 at a concrete store holding two stock records. -/
theorem claim7_witness :
    Store.stock_statistics_default
      (Store.stock (Store.stock Store.init "w" 5 10 3).2 "v" 2 7 4).2 =
      .ok (generate_statistics
        (Store.stock (Store.stock Store.init "w" 5 10 3).2
          "v" 2 7 4).2.stock_records) :=
  (claim7_full_range_statistics
    (Store.stock (Store.stock Store.init "w" 5 10 3).2 "v" 2 7 4).2
    (by decide) (by decide)).1

/-- The concrete store for the C8 counterexample: two stock records of the
same item at dates 3 and 5, so the stock log is non-decreasing by date. -/
def c8Store : Store :=
  (Store.stock (Store.stock Store.init "w" 1 10 3).2 "w" 1 10 5).2

/-- Counterexample to C8 as stated: on a store with date-sorted logs,
`stock_history_over_period(0, 5)` returns the record dated exactly 5 —
the exclusive upper bound — so not every returned timestamp satisfies
`t < end`. -/
theorem claim8_counterexample :
    c8Store.stock_records.Pairwise (fun a b => a.date ≤ b.date) ∧
    c8Store.sales_records.Pairwise (fun a b => a.date ≤ b.date) ∧
    Store.stock_history_over_period c8Store 0 5 =
      .ok [⟨⟨"w", 10⟩, 1, 3⟩, ⟨⟨"w", 10⟩, 1, 5⟩] ∧
    ¬ (∀ rec ∈ [(⟨⟨"w", 10⟩, 1, 3⟩ : ItemRecord), ⟨⟨"w", 10⟩, 1, 5⟩],
        rec.date < 5) :=
  ⟨by decide, by decide, rfl, by decide⟩

/-- Claim C8 (amended: the upper bound is attained, `begin <= t <= end`
instead of `begin <= t < end`, as the counterexample forces): on any store
whose record logs are non-decreasing by timestamp, whatever list a history
query returns is itself in non-decreasing timestamp order and every
returned record's date lies between the bounds, the upper one
inclusively. -/
theorem claim8_history_sorted_within_bounds (s : Store) (b e : Int)
    (hst : s.stock_records.Pairwise (fun x y => x.date ≤ y.date))
    (hsl : s.sales_records.Pairwise (fun x y => x.date ≤ y.date)) :
    (∀ r, Store.stock_history_over_period s b e = .ok r →
      r.Pairwise (fun x y => x.date ≤ y.date) ∧
      ∀ rec ∈ r, b ≤ rec.date ∧ rec.date ≤ e) ∧
    (∀ r, Store.sales_history_over_period s b e = .ok r →
      r.Pairwise (fun x y => x.date ≤ y.date) ∧
      ∀ rec ∈ r, b ≤ rec.date ∧ rec.date ≤ e) := by
  constructor
  · intro r hr
    exact slice_monotonic_sound s.stock_records b e (fun x => x.date) hst r hr
  · intro r hr
    exact slice_monotonic_sound s.sales_records b e (fun x => x.date) hsl r hr

/-- Witness for C8 at the concrete store, with bounds `[0, 4)` that return
only the first record. -/
theorem claim8_witness :
    ([(⟨⟨"w", 10⟩, 1, 3⟩ : ItemRecord)].Pairwise
      (fun x y => x.date ≤ y.date)) ∧
    ∀ rec ∈ [(⟨⟨"w", 10⟩, 1, 3⟩ : ItemRecord)],
      (0 : Int) ≤ rec.date ∧ rec.date ≤ 4 :=
  (claim8_history_sorted_within_bounds c8Store 0 4 (by decide) (by decide)).1
    [⟨⟨"w", 10⟩, 1, 3⟩] rfl

/-- Claim C9: on a fresh store both `sell("ghost", 1)` and
`statistic("ghost")` fail with `ItemUnknown`; in general any sell or
single-name statistic lookup of an unregistered name fails with
`ItemUnknown` and returns the store exactly as it was. -/
theorem claim9_unknown_item :
    Store.sell Store.init "ghost" 1 0 = (.error .itemUnknown, Store.init) ∧
    Store.statistic_single Store.init "ghost" = .error .itemUnknown ∧
    (∀ (s : Store) (name : String) (count now : Int),
      assocLookup s.items name = none →
      Store.sell s name count now = (.error .itemUnknown, s) ∧
      Store.statistic_single s name = .error .itemUnknown) := by
  refine ⟨rfl, rfl, ?_⟩
  intro s name count now hnone
  have hf : Store.find_item s name = .error .itemUnknown := by
    simp only [Store.find_item, hnone]
  constructor
  · simp only [Store.sell, hf]
  · simp only [Store.statistic_single, hf]

/-- Witness for C9 at a store that registers a widget but not the name
looked up. -/
theorem claim9_witness :
    Store.sell (Store.stock Store.init "widget" 5 10 0).2 "phantom" 2 7 =
      (.error .itemUnknown, (Store.stock Store.init "widget" 5 10 0).2) :=
  (claim9_unknown_item.2.2 (Store.stock Store.init "widget" 5 10 0).2
    "phantom" 2 7 rfl).1

/-- Claim C10: in every reachable store state the key set of the
statistics cache is exactly the set of registered items; registering a
fresh name appends exactly one zeroed statistic for the new item, for
which no statistic existed before; and therefore the internal statistics
lookups performed after a successful `find_item` (as in `sell`,
`statistic` and `update_statistic`) never miss. -/
theorem claim10_cache_keys (s : Store) (h : Store.Reachable s) :
    (∀ i : Item, (∃ n, assocLookup s.items n = some i) ↔
      (assocLookup s.statistics i).isSome = true) ∧
    (∀ (name : String) (price : Int) (ra : Except PyErr Item) (s' : Store),
      assocLookup s.items name = none →
      Store.add_item s name price = (ra, s') →
      ra = .ok ⟨name, price⟩ ∧
      assocLookup s.statistics ⟨name, price⟩ = none ∧
      s'.statistics = s.statistics ++ [(⟨name, price⟩, ⟨⟨name, price⟩, 0⟩)]) ∧
    (∀ (name : String) (i : Item), Store.find_item s name = .ok i →
      (assocLookup s.statistics i).isSome = true) := by
  have h' := reachable_storeInv s h
  refine ⟨h'.2, ?_, ?_⟩
  · intro name price ra s' hnone hadd
    simp only [Store.add_item, hnone] at hadd
    injection hadd with h1 h2
    have hstat_none : assocLookup s.statistics ⟨name, price⟩ = none := by
      cases hq : assocLookup s.statistics ⟨name, price⟩ with
      | none => rfl
      | some st =>
        have hq' : (assocLookup s.statistics ⟨name, price⟩).isSome = true := by
          rw [hq]; rfl
        obtain ⟨m, hm⟩ := (h'.2 ⟨name, price⟩).mpr hq'
        have hmn : (⟨name, price⟩ : Item).name = m := h'.1 m _ hm
        rw [show (⟨name, price⟩ : Item).name = name from rfl] at hmn
        rw [← hmn, hnone] at hm
        cases hm
    refine ⟨h1.symm, hstat_none, ?_⟩
    rw [← h2]
    show assocSet s.statistics ⟨name, price⟩ ⟨⟨name, price⟩, 0⟩ =
      s.statistics ++ [(⟨name, price⟩, ⟨⟨name, price⟩, 0⟩)]
    unfold assocSet
    rw [hstat_none]
    rfl
  · intro name i hfind
    cases hq : assocLookup s.items name with
    | none =>
      simp only [Store.find_item, hq] at hfind
      exact Except.noConfusion hfind
    | some j =>
      simp only [Store.find_item, hq] at hfind
      injection hfind with hji
      exact (h'.2 i).mp ⟨name, by rw [hq, hji]⟩

/-- Witness for C10 at the reachable one-widget store: the cache lookup
for the registered widget does not miss. -/
theorem claim10_witness :
    (assocLookup (Store.stock Store.init "widget" 5 10 0).2.statistics
      ⟨"widget", 10⟩).isSome = true :=
  (claim10_cache_keys (Store.stock Store.init "widget" 5 10 0).2
    (Store.Reachable.stock Store.Reachable.init
      (show Store.stock Store.init "widget" 5 10 0 =
        ((Store.stock Store.init "widget" 5 10 0).1,
         (Store.stock Store.init "widget" 5 10 0).2) from rfl))).2.2
    "widget" ⟨"widget", 10⟩ rfl
